import Mathlib

/-!
Verification of the Bernoulli network-tomography simulator
(Tomography_Bernoulli/simulator.py).

The simulator stores hosts and links in two parallel arrays laid out as an
implicit binary heap, drives one probe packet per tick from the sender down
the tree with independent Bernoulli loss on every link, and records per-host
estimation series in three dictionaries keyed by host name.

The classes Link, Host and Packet (modules network, host, packet) and the
estimator est_bernoulli_prob (module algorithms) are imported by simulator.py
but their sources are not part of the repository snapshot; they are modelled
from the specification where needed, and the estimator is kept as an explicit
parameter of the simulation so every theorem holds for an arbitrary estimator.

Probabilities and loss rates are modelled as rationals.  A packet is modelled
as the tick number that created it.  Randomness is modelled as an explicit
stream of uniform draws, consumed one draw per Bernoulli trial.
-/

namespace Tomography

/-- Modelled from the spec: the Link class (module network, not under src/).
One edge of the tree: a fixed Bernoulli drop probability, cumulative counters
of delivery attempts and successes, and the packet currently traversing the
link, awaiting delivery to the owning host. -/
structure Link where
  bernoulli_alpha : ℚ
  attempts : ℕ
  successes : ℕ
  current_packet : Option ℕ
deriving DecidableEq

/-- Modelled from the spec: the Host class (module host, not under src/).
A tree node: role-qualified name, downstream references (stored here as
host-array indices; the Python code stores object references), the ready flag
gating the sender, and the probe delivered to this host on the current tick. -/
structure Host where
  name : String
  downstream_nodes : List ℕ
  ready_to_send : Bool
  current_packet : Option ℕ
deriving DecidableEq

/-- Default Link used by out-of-range reads (the Python code would raise
IndexError there; all claims operate in range). -/
def dLink : Link := ⟨0, 0, 0, none⟩

/-- Default Host used by out-of-range reads. -/
def dHost : Host := ⟨"", [], true, none⟩

/-- Modelled from the spec: Link construction takes the drop probability and
starts with zeroed counters and no packet in flight. -/
def Link.make (a : ℚ) : Link := ⟨a, 0, 0, none⟩

/-- Modelled from the spec: Host construction takes the name; a fresh host has
no downstream references, is ready to send, and holds no probe. -/
def Host.make (n : String) : Host := ⟨n, [], true, none⟩

/-- Modelled from the spec: Link.recv draws one Bernoulli trial with parameter
bernoulli_alpha (r is the uniform draw in [0,1)): on success the packet is
held for delivery and the success counter increments; on failure the packet is
discarded silently.  The attempt counter always increments. -/
def Link.recv (l : Link) (r : ℚ) (p : ℕ) : Link :=
  if r < l.bernoulli_alpha then
    { l with attempts := l.attempts + 1, current_packet := none }
  else
    { l with attempts := l.attempts + 1, successes := l.successes + 1,
             current_packet := some p }

/-- Modelled from the spec: loss_rate returns 1 - successes/attempts, defined
as 0 before any traffic has flowed. -/
def Link.loss_rate (l : Link) : ℚ :=
  if l.attempts = 0 then 0 else 1 - (l.successes : ℚ) / (l.attempts : ℚ)

/-- Modelled from the spec and from the run_simulation docstring in
simulator.py ("the links simply send to the router sharing their incremented
position in the array"): Link.tick delivers the surviving packet, if any, to
the host at the same heap position. -/
def Link.tick (l : Link) (h : Host) : Link × Host :=
  match l.current_packet with
  | some p => ({ l with current_packet := none }, { h with current_packet := some p })
  | none => (l, h)

/-- Modelled from the spec: sender variant of Host.send.  Callable only when
ready_to_send is true; it hands a fresh packet carrying the tick to the link
and clears the ready flag (the driver resets it at the end of the tick).
Returns the updated host, the updated link, and the number of random draws
consumed. -/
def Host.send_one (h : Host) (t : ℕ) (l : Link) (r : ℚ) : Host × Link × ℕ :=
  if h.ready_to_send then
    ({ h with ready_to_send := false }, l.recv r t, 1)
  else (h, l, 0)

/-- Modelled from the spec: router variant of Host.send.  The router forwards
the probe it received this tick as two copies, one through each child link,
each subject to an independent Bernoulli trial; a router that received no
probe this tick forwards nothing.  Returns the updated host, both updated
links, and the number of random draws consumed. -/
def Host.send_two (h : Host) (l1 l2 : Link) (r1 r2 : ℚ) : Host × Link × Link × ℕ :=
  match h.current_packet with
  | some p => ({ h with current_packet := none }, l1.recv r1 p, l2.recv r2 p, 2)
  | none => (h, l1, l2, 0)

/-- simulator.py lines 20-23: the num_recvrs validator.  argparse applies it
to the raw command-line string. -/
def check_recvrs (num_recvrs : String) : Except String String :=
  if num_recvrs ∈ ["2", "4", "8", "16", "32", "64", "128", "256"] then
    Except.ok num_recvrs
  else
    Except.error "Available experiments are 2^n up to 2^n = 128 receivers"

/-- simulator.py lines 25-28: the mode validator. -/
def check_mode (mode : String) : Except String String :=
  if mode ∈ ["sdn", "tomography"] then Except.ok mode
  else Except.error "Run in either <sdn> (smart router) or <tomography> mode"

/-- One base-10 digit of the int conversion. -/
def digit_val (c : Char) : Option ℕ :=
  if 48 ≤ c.toNat ∧ c.toNat ≤ 57 then some (c.toNat - 48) else none

/-- Accumulating base-10 parse of a digit string. -/
def nat_of_chars : List Char → ℕ → Option ℕ
  | [], acc => some acc
  | c :: rest, acc =>
    match digit_val c with
    | some d => nat_of_chars rest (acc * 10 + d)
    | none => none

/-- simulator.py lines 36-37: the ticks argument is registered with type=int
and no further validation; this models the int conversion (base-10 integer
literal with optional sign) that argparse applies to the command-line string.
Any integer, including 0 and negative values, is accepted. -/
def ticks_arg_type (s : String) : Option Int :=
  match s.data with
  | '-' :: rest => if rest = [] then none else (nat_of_chars rest 0).map (fun n => -(n : Int))
  | cs => if cs = [] then none else (nat_of_chars cs 0).map (fun n => (n : Int))

/-- simulator.py lines 113-122: uniform array of per-link drop probabilities. -/
def bernoulli_setup (total_links : ℕ) (default_bernoulli : ℚ) : List ℚ :=
  (List.range total_links).map (fun _ => default_bernoulli)

/-- simulator.py lines 98-108: the wiring loop of network_setup.  It runs
while incr > 0 and decrements, so the branch for incr = 0 (which would give
the sender its single downstream child) is dead code: the sender is never
wired. -/
def wire_loop (hs : List Host) : ℕ → List Host
  | 0 => hs
  | m + 1 =>
    let incr := m + 1
    let node := hs.getD incr dHost
    let node2 :=
      if 0 < incr then
        { node with downstream_nodes := node.downstream_nodes ++ [2 * incr, 2 * incr + 1] }
      else if incr = 0 then
        { node with downstream_nodes := node.downstream_nodes ++ [incr + 1] }
      else node
    wire_loop (hs.set incr node2) m

/-- simulator.py lines 56-110: builds the link array (index 0 with drop
probability 0, all others with the default 1/10) and the host array
(sender and routers first, then receivers), then wires downstream references
from the highest router index down. -/
def network_setup (num_recvrs : ℕ) : List Link × List Host :=
  let total_links := 2 * num_recvrs
  let bern := bernoulli_setup total_links (1 / 10)
  let link_array := (List.range total_links).map
    (fun i => if i = 0 then Link.make 0 else Link.make (bern.getD i 0))
  let receiver_array := (List.range num_recvrs).map
    (fun j => Host.make ("receiver" ++ Nat.repr (j + 1)))
  let router_array := (List.range num_recvrs).map
    (fun k => Host.make (if k = 0 then "sender" else "router" ++ Nat.repr k))
  let host_array := router_array ++ receiver_array
  (link_array, wire_loop host_array (num_recvrs - 1))

/-- The estimator est_bernoulli_prob (module algorithms, not under src/) is
kept as an explicit parameter; its arguments mirror the Python call:
host, yhat_dict, gamma_dict, alpha_dict, tick, host_array. -/
def EstFn : Type :=
  Host → (String → List ℚ) → (String → ℚ) → (String → List ℚ) → ℕ → List Host →
    ℚ × ℚ × ℚ

/-- The two run modes accepted by check_mode. -/
inductive Mode
  | tomography
  | sdn
deriving DecidableEq

/-- Append one value to the list stored under key k. -/
def dict_append (d : String → List ℚ) (k : String) (v : ℚ) : String → List ℚ :=
  fun s => if s = k then d s ++ [v] else d s

/-- Overwrite the scalar stored under key k. -/
def dict_set (d : String → ℚ) (k : String) (v : ℚ) : String → ℚ :=
  fun s => if s = k then v else d s

/-- The three per-host series dictionaries of simulator.py (keyed by host
name; modelled as total functions, initialised for every key). -/
structure Dicts where
  yhat : String → List ℚ
  gamma : String → ℚ
  alpha : String → List ℚ

/-- simulator.py lines 125-136: body of tomography_reporting, iterating the
host array; each host appends one yhat value, overwrites its gamma scalar and
appends one alpha value, computed by the estimator from the current dicts. -/
def tomography_loop (est : EstFn) (t : ℕ) (all : List Host) :
    List Host → (String → List ℚ) → (String → ℚ) → (String → List ℚ) →
    (String → List ℚ) × (String → ℚ) × (String → List ℚ)
  | [], y, g, a => (y, g, a)
  | h :: rest, y, g, a =>
    let r := est h y g a t all
    tomography_loop est t all rest
      (dict_append y h.name r.1) (dict_set g h.name r.2.1) (dict_append a h.name r.2.2)

/-- simulator.py lines 125-136: tomography_reporting (the tick argument is
used only for printing and is dropped here). -/
def tomography_reporting (est : EstFn) (t : ℕ) (host_array : List Host)
    (y : String → List ℚ) (g : String → ℚ) (a : String → List ℚ) :
    (String → List ℚ) × (String → ℚ) × (String → List ℚ) :=
  tomography_loop est t host_array host_array y g a

/-- simulator.py lines 145-148: body of sdn_reporting, iterating the indices
of the host array; the value appended for host i is the loss rate of the link
at the same heap index i. -/
def sdn_loop (host_array : List Host) (link_array : List Link) :
    List ℕ → (String → List ℚ) → (String → List ℚ)
  | [], a => a
  | i :: rest, a =>
    let host := host_array.getD i dHost
    let incoming_link := link_array.getD i dLink
    sdn_loop host_array link_array rest (dict_append a host.name incoming_link.loss_rate)

/-- simulator.py lines 139-148: sdn_reporting (the tick argument is used only
for printing and is dropped here). -/
def sdn_reporting (host_array : List Host) (link_array : List Link)
    (a : String → List ℚ) : String → List ℚ :=
  sdn_loop host_array link_array (List.range host_array.length) a

/-- Trace events emitted while a tick executes: one linkProc per loop
iteration of the link pass, one sendCall per Host.send invocation (recording
the sending host index and the link indices passed to it), the reset of the
sender ready flag, and the per-tick estimator invocation. -/
inductive Event
  | linkProc (i : ℕ)
  | sendCall (i : ℕ) (ls : List ℕ)
  | resetSender
  | estimate
deriving DecidableEq

/-- The heap index carried by a linkProc event. -/
def Event.procIdx : Event → Option ℕ
  | .linkProc i => some i
  | _ => none

/-- The host index and link indices carried by a sendCall event. -/
def Event.sendInfo : Event → Option (ℕ × List ℕ)
  | .sendCall i ls => some (i, ls)
  | _ => none

/-- The mutable network state threaded through the tick loop: the link and
host arrays and the position of the next unconsumed random draw. -/
structure NetState where
  links : List Link
  hosts : List Host
  rand_idx : ℕ

/-- simulator.py lines 173-175: at index 0 the initial link receives the
externally injected packet of this tick. -/
def iter_recv0 (t : ℕ) (stream : ℕ → ℚ) (st : NetState) (i : ℕ) : NetState :=
  if i = 0 then
    { st with links := st.links.set 0 ((st.links.getD 0 dLink).recv (stream st.rand_idx) t),
              rand_idx := st.rand_idx + 1 }
  else st

/-- simulator.py line 178: every link performs its tick step, delivering any
surviving packet to the host at the same index. -/
def iter_tick (st : NetState) (i : ℕ) : NetState :=
  let lh := Link.tick (st.links.getD i dLink) (st.hosts.getD i dHost)
  { st with links := st.links.set i lh.1, hosts := st.hosts.set i lh.2 }

/-- simulator.py lines 181-183: at index 0 the sender sends through link 1. -/
def iter_send0 (t : ℕ) (stream : ℕ → ℚ) (st : NetState) (i : ℕ) : NetState :=
  if i = 0 then
    let s := Host.send_one (st.hosts.getD 0 dHost) t (st.links.getD 1 dLink)
               (stream st.rand_idx)
    { st with hosts := st.hosts.set 0 s.1, links := st.links.set 1 s.2.1,
              rand_idx := st.rand_idx + s.2.2 }
  else st

/-- simulator.py lines 186-191: every router index (0 < i < num_other) sends
through its two children links at positions 2i and 2i+1. -/
def iter_sendr (stream : ℕ → ℚ) (num_other : ℕ) (st : NetState) (i : ℕ) : NetState :=
  if 0 < i ∧ i < num_other then
    let s := Host.send_two (st.hosts.getD i dHost) (st.links.getD (2 * i) dLink)
               (st.links.getD (2 * i + 1) dLink) (stream st.rand_idx)
               (stream (st.rand_idx + 1))
    { st with hosts := st.hosts.set i s.1,
              links := (st.links.set (2 * i) s.2.1).set (2 * i + 1) s.2.2.1,
              rand_idx := st.rand_idx + s.2.2.2 }
  else st

/-- The per-iteration trace: the link-processing event of index i followed by
the Host.send invocations the code makes at index i (the sender call at index
0 with link 1, the router call at 0 < i < num_other with links 2i and 2i+1). -/
def iter_events (num_other : ℕ) (i : ℕ) : List Event :=
  Event.linkProc i ::
    ((if i = 0 then [Event.sendCall 0 [1]] else []) ++
     (if 0 < i ∧ i < num_other then [Event.sendCall i [2 * i, 2 * i + 1]] else []))

/-- simulator.py lines 171-191: the body of the per-tick loop over the link
array, at index i: the four steps in source order, plus the trace events of
this iteration. -/
def link_iter (t : ℕ) (stream : ℕ → ℚ) (num_other : ℕ) (st : NetState) (i : ℕ) :
    NetState × List Event :=
  (iter_sendr stream num_other (iter_send0 t stream (iter_tick (iter_recv0 t stream st i) i) i) i,
   iter_events num_other i)

/-- The full link pass of one tick: link_iter folded over a list of indices. -/
def link_pass (t : ℕ) (stream : ℕ → ℚ) (num_other : ℕ) :
    NetState → List ℕ → NetState × List Event
  | st, [] => (st, [])
  | st, i :: rest =>
    let r1 := link_iter t stream num_other st i
    let r2 := link_pass t stream num_other r1.1 rest
    (r2.1, r1.2 ++ r2.2)

/-- simulator.py lines 167-194: the network state after the link pass of one
tick and the reset of the sender ready flag (line 194). -/
def tick_net (stream : ℕ → ℚ) (num_other t : ℕ) (st : NetState) : NetState :=
  let p1 := (link_pass t stream num_other st (List.range st.links.length)).1
  { p1 with hosts := p1.hosts.set 0 { p1.hosts.getD 0 dHost with ready_to_send := true } }

/-- simulator.py lines 167-202: one iteration of the tick loop: the link pass
over all link indices in ascending order, then the reset of the sender ready
flag, then the estimator selected by the mode, applied to the completed
post-pass state. -/
def run_tick (mode : Mode) (est : EstFn) (stream : ℕ → ℚ) (num_other : ℕ) (t : ℕ)
    (st : NetState) (d : Dicts) : (NetState × Dicts) × List Event :=
  let st2 := tick_net stream num_other t st
  let d2 :=
    match mode with
    | .tomography =>
      let r := tomography_reporting est t st2.hosts d.yhat d.gamma d.alpha
      ⟨r.1, r.2.1, r.2.2⟩
    | .sdn => { d with alpha := sdn_reporting st2.hosts st2.links d.alpha }
  ((st2, d2),
   (link_pass t stream num_other st (List.range st.links.length)).2
     ++ [Event.resetSender, Event.estimate])

/-- The tick loop: runs the given number of remaining ticks starting at tick
index t, concatenating the traces of the ticks. -/
def run_ticks (mode : Mode) (est : EstFn) (stream : ℕ → ℚ) (num_other : ℕ) :
    NetState → Dicts → ℕ → ℕ → (NetState × Dicts) × List Event
  | st, d, _, 0 => ((st, d), [])
  | st, d, t, r + 1 =>
    let a := run_tick mode est stream num_other t st d
    let b := run_ticks mode est stream num_other a.1.1 a.1.2 (t + 1) r
    (b.1, a.2 ++ b.2)

/-- simulator.py lines 151-204: run_simulation.  num_recv = num_other is
computed once, before the loop, as half the host-array length. -/
def run_simulation (mode : Mode) (est : EstFn) (stream : ℕ → ℚ) (ticks : ℕ)
    (st : NetState) (d : Dicts) : (NetState × Dicts) × List Event :=
  run_ticks mode est stream (st.hosts.length / 2) st d 0 ticks

/-- simulator.py lines 291-292: the network state as built before the run. -/
def initial_net (num_recvrs : ℕ) : NetState :=
  let n := network_setup num_recvrs
  { links := n.1, hosts := n.2, rand_idx := 0 }

/-- simulator.py lines 293-303: the three dictionaries initialised to empty
series and gamma 0 for every host name. -/
def initial_dicts : Dicts :=
  { yhat := fun _ => [], gamma := fun _ => 0, alpha := fun _ => [] }

/-- A trivial estimator, used to instantiate universally quantified theorems
on concrete inputs. -/
def est0 : EstFn := fun _ _ _ _ _ _ => (0, 0, 0)

/-! ### Generic list access helpers -/

/-- Reading any position of a list after a name-preserving update at position i
yields a host with an unchanged name. -/
lemma name_getD_set (hs : List Host) (i j : ℕ) (h2 : Host)
    (hname : h2.name = (hs.getD i dHost).name) :
    ((hs.set i h2).getD j dHost).name = (hs.getD j dHost).name := by
  rw [List.getD_eq_getElem?_getD, List.getD_eq_getElem?_getD, List.getElem?_set]
  by_cases hij : i = j
  · subst hij
    by_cases hi : i < hs.length
    · rw [if_pos rfl, if_pos hi, Option.getD_some, hname, List.getD_eq_getElem?_getD]
    · rw [if_pos rfl, if_neg hi, Option.getD_none,
        List.getElem?_eq_none (Nat.le_of_not_lt hi), Option.getD_none]
  · rw [if_neg hij]

/-- A name-preserving update leaves the list of host names unchanged. -/
lemma set_map_name (hs : List Host) (i : ℕ) (h2 : Host)
    (hname : h2.name = (hs.getD i dHost).name) :
    (hs.set i h2).map Host.name = hs.map Host.name := by
  apply List.ext_getElem?
  intro j
  rw [List.getElem?_map, List.getElem?_map, List.getElem?_set]
  by_cases hij : i = j
  · subst hij
    by_cases hi : i < hs.length
    · rw [if_pos rfl, if_pos hi, List.getElem?_eq_getElem hi]
      rw [List.getD_eq_getElem _ _ hi] at hname
      simp [hname]
    · rw [if_pos rfl, if_neg hi, List.getElem?_eq_none (by omega)]
  · rw [if_neg hij]

/-- Setting a position other than j leaves getD at j unchanged. -/
lemma getD_set_ne_link (ls : List Link) (i j : ℕ) (v : Link) (h : i ≠ j) :
    ((ls.set i v).getD j dLink) = ls.getD j dLink := by
  rw [List.getD_eq_getElem?_getD, List.getD_eq_getElem?_getD, List.getElem?_set_ne h]

/-- getD after setting the same position. -/
lemma getD_set_self_link (ls : List Link) (i : ℕ) (v : Link) :
    ((ls.set i v).getD i dLink) = if i < ls.length then v else ls.getD i dLink := by
  rw [List.getD_eq_getElem?_getD, List.getElem?_set]
  by_cases hi : i < ls.length
  · simp [hi]
  · rw [if_pos rfl, if_neg hi, Option.getD_none, if_neg hi, List.getD_eq_getElem?_getD,
      List.getElem?_eq_none (Nat.le_of_not_lt hi), Option.getD_none]

/-- Listing a list by positions reproduces the list. -/
lemma map_getD_range (hs : List Host) :
    (List.range hs.length).map (fun i => hs.getD i dHost) = hs := by
  induction hs with
  | nil => rfl
  | cons h tl ih =>
    rw [List.length_cons, List.range_succ_eq_map, List.map_cons, List.map_map]
    refine congrArg (List.cons _) ?_
    calc (List.range tl.length).map ((fun i => (h :: tl).getD i dHost) ∘ Nat.succ)
        = (List.range tl.length).map (fun i => tl.getD i dHost) := rfl
      _ = tl := ih

/-- The names of the hosts read off by position are exactly the mapped names. -/
lemma map_name_getD_range (hs : List Host) :
    (List.range hs.length).map (fun i => (hs.getD i dHost).name) = hs.map Host.name := by
  have h1 : (List.range hs.length).map (fun i => (hs.getD i dHost).name)
      = ((List.range hs.length).map (fun i => hs.getD i dHost)).map Host.name := by
    rw [List.map_map]; rfl
  rw [h1, map_getD_range]

/-- Positions with nodup names carry pairwise distinct names. -/
lemma name_inj_of_nodup (hs : List Host) (hnd : (hs.map Host.name).Nodup)
    {i j : ℕ} (hi : i < hs.length) (hj : j < hs.length)
    (h : (hs.getD i dHost).name = (hs.getD j dHost).name) : i = j := by
  have hi2 : i < (hs.map Host.name).length := by simpa using hi
  have hj2 : j < (hs.map Host.name).length := by simpa using hj
  have hmi : (hs.map Host.name)[i] = (hs.getD i dHost).name := by
    rw [List.getElem_map, List.getD_eq_getElem _ _ hi]
  have hmj : (hs.map Host.name)[j] = (hs.getD j dHost).name := by
    rw [List.getElem_map, List.getD_eq_getElem _ _ hj]
  exact (List.Nodup.getElem_inj_iff hnd).mp (by rw [hmi, hmj, h])

/-! ### Trace structure of one tick -/

/-- Membership in a conditional singleton list forces the element. -/
lemma mem_if_singleton {c : Prop} [Decidable c] {x e : Event}
    (h : e ∈ (if c then [x] else [])) : e = x := by
  by_cases hc : c
  · rw [if_pos hc] at h
    simpa using h
  · rw [if_neg hc] at h
    simp at h

/-- The trace of the link pass is the concatenation of the per-index traces. -/
lemma link_pass_trace (t : ℕ) (stream : ℕ → ℚ) (no : ℕ) :
    ∀ (is : List ℕ) (st : NetState),
      (link_pass t stream no st is).2 = is.flatMap (iter_events no)
  | [], _ => rfl
  | i :: rest, st => by
    rw [link_pass, List.flatMap_cons]
    exact congrArg (List.append _) (link_pass_trace t stream no rest _)

/-- Each iteration carries exactly one link-processing event, at its own index. -/
lemma iter_events_procIdx (no i : ℕ) :
    (iter_events no i).filterMap Event.procIdx = [i] := by
  unfold iter_events
  rcases Nat.eq_zero_or_pos i with h0 | h0
  · subst h0
    simp [Event.procIdx]
  · rw [if_neg (by omega)]
    by_cases hr : 0 < i ∧ i < no
    · rw [if_pos hr]
      simp [Event.procIdx]
    · rw [if_neg hr]
      simp [Event.procIdx]

/-- Every event of the link pass is a link-processing or a send-call event. -/
lemma iter_events_shape (no i : ℕ) (e : Event) (he : e ∈ iter_events no i) :
    e ≠ Event.resetSender ∧ e ≠ Event.estimate := by
  unfold iter_events at he
  rw [List.mem_cons] at he
  rcases he with rfl | he
  · exact ⟨by simp, by simp⟩
  · rcases List.mem_append.mp he with h | h
    · rw [mem_if_singleton h]
      exact ⟨by simp, by simp⟩
    · rw [mem_if_singleton h]
      exact ⟨by simp, by simp⟩

/-- The link-processing events of a pass are exactly its index list, in order. -/
lemma bind_events_procIdx (no : ℕ) :
    ∀ is : List ℕ, (is.flatMap (iter_events no)).filterMap Event.procIdx = is
  | [] => rfl
  | i :: rest => by
    rw [List.flatMap_cons, List.filterMap_append, iter_events_procIdx,
      bind_events_procIdx no rest]
    rfl

/-- The trace of one tick: the link pass over all indices, then the sender
reset, then the estimator invocation. -/
lemma run_tick_trace (mode : Mode) (est : EstFn) (stream : ℕ → ℚ) (no t : ℕ)
    (st : NetState) (d : Dicts) :
    (run_tick mode est stream no t st d).2
      = (List.range st.links.length).flatMap (iter_events no)
          ++ [Event.resetSender, Event.estimate] := by
  simp only [run_tick]
  rw [link_pass_trace]

/-- The send-call events of one iteration. -/
lemma iter_events_sendInfo (no i : ℕ) :
    (iter_events no i).filterMap Event.sendInfo
      = if i = 0 then [(0, [1])]
        else if i < no then [(i, [2 * i, 2 * i + 1])] else [] := by
  unfold iter_events
  by_cases h0 : i = 0
  · subst h0
    simp [Event.sendInfo]
  · by_cases hr : i < no
    · simp [Event.sendInfo, h0, hr, Nat.pos_of_ne_zero h0]
    · simp [Event.sendInfo, h0, hr]

/-- The send-call events of a pass, index by index. -/
lemma flatMap_events_sendInfo (no : ℕ) :
    ∀ is : List ℕ,
      (is.flatMap (iter_events no)).filterMap Event.sendInfo
        = is.flatMap (fun i =>
            if i = 0 then [(0, [1])]
            else if i < no then [(i, [2 * i, 2 * i + 1])] else [])
  | [] => rfl
  | i :: rest => by
    rw [List.flatMap_cons, List.filterMap_append, iter_events_sendInfo,
      flatMap_events_sendInfo no rest, List.flatMap_cons]

/-- A flatMap of singletons is a map. -/
lemma flatMap_singleton_of {α β : Type} (l : List α) (f : α → List β) (f1 : α → β)
    (h : ∀ a ∈ l, f a = [f1 a]) : l.flatMap f = l.map f1 := by
  induction l with
  | nil => rfl
  | cons a rest ih =>
    rw [List.flatMap_cons, List.map_cons, h a (List.mem_cons_self a rest),
      ih (fun b hb => h b (List.mem_cons_of_mem a hb))]
    rfl

/-- C5: within every tick of run_simulation, link and host processing proceeds
strictly in ascending heap-index order over the link array (the link-processing
events of the tick trace are exactly the index range, in order), and the
estimator invocation happens only after the full link pass and the sender
ready-flag reset (the tick trace ends with the reset event followed by the
estimator event, and neither occurs earlier), so the estimator for a tick only
ever sees the completed post-pass state. -/
theorem c5_tick_ordering (mode : Mode) (est : EstFn) (stream : ℕ → ℚ) (no t : ℕ)
    (st : NetState) (d : Dicts) :
    ((run_tick mode est stream no t st d).2.filterMap Event.procIdx
        = List.range st.links.length)
    ∧ ∃ pre, (run_tick mode est stream no t st d).2
          = pre ++ [Event.resetSender, Event.estimate]
        ∧ ∀ e ∈ pre, e ≠ Event.resetSender ∧ e ≠ Event.estimate := by
  constructor
  · rw [run_tick_trace, List.filterMap_append, bind_events_procIdx]
    simp [Event.procIdx]
  · refine ⟨(List.range st.links.length).flatMap (iter_events no),
      run_tick_trace mode est stream no t st d, ?_⟩
    intro e he
    rcases List.mem_flatMap.mp he with ⟨i, _, hei⟩
    exact iter_events_shape no i e hei

/-- C6: on every tick, the sender (index 0) is invoked to send exactly once,
through link 1; every router index i with 0 < i < num_other is invoked to send
exactly once, through the two children links at positions 2i and 2i+1; and no
receiver index (num_other and above) ever sends.  The send-call events of the
tick trace are exactly one per index below num_other, with those link
arguments, where num_other is half the host count, as run_simulation passes
it. -/
theorem c6_send_targets (mode : Mode) (est : EstFn) (stream : ℕ → ℚ) (t : ℕ)
    (st : NetState) (d : Dicts)
    (hlen : st.links.length = st.hosts.length) (hsz : 2 ≤ st.hosts.length) :
    (run_tick mode est stream (st.hosts.length / 2) t st d).2.filterMap Event.sendInfo
      = (List.range (st.hosts.length / 2)).map
          (fun i => (i, if i = 0 then [1] else [2 * i, 2 * i + 1])) := by
  set no := st.hosts.length / 2 with hno
  have h1 : 1 ≤ no := by omega
  have h2 : no ≤ st.links.length := by omega
  rw [run_tick_trace, List.filterMap_append, flatMap_events_sendInfo]
  have hsuf : List.filterMap Event.sendInfo [Event.resetSender, Event.estimate] = [] := by
    simp [Event.sendInfo]
  rw [hsuf, List.append_nil]
  have hsplit : st.links.length = no + (st.links.length - no) := by omega
  rw [hsplit, List.range_add, List.flatMap_append, List.flatMap_map]
  have hrest : (List.range (st.links.length - no)).flatMap
      (fun a => if no + a = 0 then [(0, [1])]
        else if no + a < no then [(no + a, [2 * (no + a), 2 * (no + a) + 1])] else []) = [] := by
    rw [List.flatMap_eq_nil_iff]
    intro x _
    rw [if_neg (by omega), if_neg (by omega)]
  rw [hrest, List.append_nil]
  apply flatMap_singleton_of
  intro i hi
  rcases Nat.eq_zero_or_pos i with h0 | h0
  · subst h0
    rw [if_pos rfl, if_pos rfl]
  · rw [if_neg (by omega), if_pos (List.mem_range.mp hi), if_neg (by omega)]

/-- C6 witness: the send-call events of the first tick on the freshly built
two-receiver topology. -/
theorem c6_send_targets_witness :
    (run_tick Mode.sdn est0 (fun _ => 0) ((initial_net 2).hosts.length / 2) 0
        (initial_net 2) initial_dicts).2.filterMap Event.sendInfo
      = (List.range ((initial_net 2).hosts.length / 2)).map
          (fun i => (i, if i = 0 then [1] else [2 * i, 2 * i + 1])) :=
  c6_send_targets Mode.sdn est0 (fun _ => 0) 0 (initial_net 2) initial_dicts
    (by decide) (by decide)

/-! ### The sdn reporting loop -/

/-- Pointwise unfolding of dict_append. -/
lemma dict_append_apply (d : String → List ℚ) (k : String) (v : ℚ) (x : String) :
    dict_append d k v x = if x = k then d x ++ [v] else d x := rfl

/-- Pointwise unfolding of dict_set. -/
lemma dict_set_apply (d : String → ℚ) (k : String) (v : ℚ) (x : String) :
    dict_set d k v x = if x = k then v else d x := rfl

/-- The sdn loop leaves keys untouched that name none of the visited hosts. -/
lemma sdn_loop_untouched (hosts : List Host) (links : List Link) :
    ∀ (is : List ℕ) (a : String → List ℚ) (x : String),
      (∀ i ∈ is, (hosts.getD i dHost).name ≠ x) → sdn_loop hosts links is a x = a x := by
  intro is
  induction is with
  | nil => intro a x _; rfl
  | cons i rest ih =>
    intro a x h
    have hx : x ≠ (hosts.getD i dHost).name := (h i (List.mem_cons_self i rest)).symm
    have hstep : sdn_loop hosts links (i :: rest) a x
        = sdn_loop hosts links rest
            (dict_append a (hosts.getD i dHost).name (links.getD i dLink).loss_rate) x := rfl
    rw [hstep, ih _ x (fun j hj => h j (List.mem_cons_of_mem i hj)),
      dict_append_apply, if_neg hx]

/-- If index j occurs once among the visited indices and no other visited
index shares its host name, the sdn loop appends exactly the loss rate of the
link at position j to the series of the host at position j. -/
lemma sdn_loop_exact (hosts : List Host) (links : List Link) :
    ∀ (is : List ℕ) (a : String → List ℚ) (j : ℕ), j ∈ is → is.Nodup →
      (∀ i ∈ is, i ≠ j → (hosts.getD i dHost).name ≠ (hosts.getD j dHost).name) →
      sdn_loop hosts links is a ((hosts.getD j dHost).name)
        = a ((hosts.getD j dHost).name) ++ [(links.getD j dLink).loss_rate] := by
  intro is
  induction is with
  | nil => intro a j hj _ _; exact absurd hj (List.not_mem_nil j)
  | cons i rest ih =>
    intro a j hj hnd hinj
    have hstep : ∀ y, sdn_loop hosts links (i :: rest) a y
        = sdn_loop hosts links rest
            (dict_append a (hosts.getD i dHost).name (links.getD i dLink).loss_rate) y :=
      fun _ => rfl
    rw [hstep]
    by_cases hij : i = j
    · subst hij
      have hnotin : i ∉ rest := (List.nodup_cons.mp hnd).1
      have hrest : ∀ k ∈ rest, (hosts.getD k dHost).name ≠ (hosts.getD i dHost).name := by
        intro k hk
        have hki : k ≠ i := fun he => hnotin (he ▸ hk)
        exact hinj k (List.mem_cons_of_mem i hk) hki
      rw [sdn_loop_untouched hosts links rest _ _ hrest, dict_append_apply, if_pos rfl]
    · have hj2 : j ∈ rest := by
        rcases List.mem_cons.mp hj with h | h
        · exact absurd h.symm hij
        · exact h
      have hname : (hosts.getD j dHost).name ≠ (hosts.getD i dHost).name :=
        fun he => hinj i (List.mem_cons_self i rest) hij he.symm
      rw [ih _ j hj2 (List.nodup_cons.mp hnd).2
        (fun k hk hkj => hinj k (List.mem_cons_of_mem i hk) hkj),
        dict_append_apply, if_neg hname]

/-- After the sdn loop, the length of the series under key x has grown by the
number of visited hosts named x. -/
lemma sdn_loop_count (hosts : List Host) (links : List Link) :
    ∀ (is : List ℕ) (a : String → List ℚ) (x : String),
      (sdn_loop hosts links is a x).length
        = (a x).length + (is.map (fun i => (hosts.getD i dHost).name)).count x := by
  intro is
  induction is with
  | nil =>
    intro a x
    rw [show sdn_loop hosts links [] a = a from rfl]
    simp
  | cons i rest ih =>
    intro a x
    have hstep : sdn_loop hosts links (i :: rest) a x
        = sdn_loop hosts links rest
            (dict_append a (hosts.getD i dHost).name (links.getD i dLink).loss_rate) x := rfl
    rw [hstep, ih, dict_append_apply, List.map_cons, List.count_cons]
    simp only [beq_iff_eq]
    by_cases hx : x = (hosts.getD i dHost).name
    · rw [if_pos hx, if_pos hx.symm, List.length_append]
      simp
      omega
    · rw [if_neg hx, if_neg (fun h => hx h.symm)]
      omega

/-- C4: in sdn (direct-measurement) mode, the value appended to the series of
the host at heap index i is exactly the loss rate of the link at the same
heap index i: sdn_reporting extends that series by the single element
link_array[i].loss_rate(), with no inference applied.  (Host names are nodup
in every built topology; the hypothesis makes the dictionary key of host i
unambiguous.) -/
theorem c4_sdn_exact (hosts : List Host) (links : List Link) (a : String → List ℚ)
    (_hlen : links.length = hosts.length)
    (hnodup : (hosts.map Host.name).Nodup) (i : ℕ) (hi : i < hosts.length) :
    sdn_reporting hosts links a ((hosts.getD i dHost).name)
      = a ((hosts.getD i dHost).name) ++ [(links.getD i dLink).loss_rate] := by
  unfold sdn_reporting
  apply sdn_loop_exact hosts links (List.range hosts.length) a i
    (List.mem_range.mpr hi) (List.nodup_range _)
  intro k hk hki heq
  exact hki (name_inj_of_nodup hosts hnodup (List.mem_range.mp hk) hi heq)

/-- C4 witness: the sdn report for host index 1 (router1) of the two-receiver
topology appends exactly the loss rate of link 1. -/
theorem c4_sdn_exact_witness :
    sdn_reporting (network_setup 2).2 (network_setup 2).1 (fun _ => [])
        (((network_setup 2).2.getD 1 dHost).name)
      = (fun _ => ([] : List ℚ)) (((network_setup 2).2.getD 1 dHost).name)
          ++ [((network_setup 2).1.getD 1 dLink).loss_rate] :=
  c4_sdn_exact (network_setup 2).2 (network_setup 2).1 (fun _ => [])
    (by decide) (by decide) 1 (by decide)

/-! ### The tomography reporting loop -/

/-- After the tomography loop, the yhat and alpha series under key x have
grown by the number of visited hosts named x (one yhat and one alpha value
are appended per visited host, whatever the estimator returns). -/
lemma tomo_loop_count (est : EstFn) (t : ℕ) (all : List Host) :
    ∀ (hs : List Host) (y : String → List ℚ) (g : String → ℚ) (a : String → List ℚ)
      (x : String),
      (((tomography_loop est t all hs y g a).1 x).length
          = (y x).length + (hs.map Host.name).count x)
      ∧ (((tomography_loop est t all hs y g a).2.2 x).length
          = (a x).length + (hs.map Host.name).count x) := by
  intro hs
  induction hs with
  | nil =>
    intro y g a x
    rw [show tomography_loop est t all [] y g a = (y, g, a) from rfl]
    constructor <;> simp
  | cons h rest ih =>
    intro y g a x
    have hstep : tomography_loop est t all (h :: rest) y g a
        = tomography_loop est t all rest
            (dict_append y h.name (est h y g a t all).1)
            (dict_set g h.name (est h y g a t all).2.1)
            (dict_append a h.name (est h y g a t all).2.2) := rfl
    rw [hstep]
    obtain ⟨ihy, iha⟩ := ih (dict_append y h.name (est h y g a t all).1)
      (dict_set g h.name (est h y g a t all).2.1)
      (dict_append a h.name (est h y g a t all).2.2) x
    rw [List.map_cons, List.count_cons]
    simp only [beq_iff_eq]
    constructor
    · rw [ihy, dict_append_apply]
      by_cases hx : x = h.name
      · rw [if_pos hx, if_pos hx.symm, List.length_append]
        simp
        omega
      · rw [if_neg hx, if_neg (fun hh => hx hh.symm)]
        omega
    · rw [iha, dict_append_apply]
      by_cases hx : x = h.name
      · rw [if_pos hx, if_pos hx.symm, List.length_append]
        simp
        omega
      · rw [if_neg hx, if_neg (fun hh => hx hh.symm)]
        omega

/-! ### Host names are preserved by the tick loop -/

/-- Host.send_one preserves the host name. -/
lemma send_one_name (h : Host) (t : ℕ) (l : Link) (r : ℚ) :
    (Host.send_one h t l r).1.name = h.name := by
  unfold Host.send_one
  split <;> rfl

/-- Host.send_two preserves the host name. -/
lemma send_two_name (h : Host) (l1 l2 : Link) (r1 r2 : ℚ) :
    (Host.send_two h l1 l2 r1 r2).1.name = h.name := by
  unfold Host.send_two
  split <;> rfl

/-- Link.tick preserves the host name. -/
lemma link_tick_host_name (l : Link) (h : Host) : (Link.tick l h).2.name = h.name := by
  unfold Link.tick
  split <;> rfl

/-- The initial-link receive step does not touch the hosts. -/
lemma iter_recv0_hosts (t : ℕ) (stream : ℕ → ℚ) (st : NetState) (i : ℕ) :
    (iter_recv0 t stream st i).hosts = st.hosts := by
  unfold iter_recv0
  split <;> rfl

/-- The link-tick step preserves host names. -/
lemma iter_tick_map_name (st : NetState) (i : ℕ) :
    (iter_tick st i).hosts.map Host.name = st.hosts.map Host.name :=
  set_map_name st.hosts i _ (link_tick_host_name _ _)

/-- The sender-send step preserves host names. -/
lemma iter_send0_map_name (t : ℕ) (stream : ℕ → ℚ) (st : NetState) (i : ℕ) :
    (iter_send0 t stream st i).hosts.map Host.name = st.hosts.map Host.name := by
  unfold iter_send0
  split
  · exact set_map_name st.hosts 0 _ (send_one_name _ _ _ _)
  · rfl

/-- The router-send step preserves host names. -/
lemma iter_sendr_map_name (stream : ℕ → ℚ) (no : ℕ) (st : NetState) (i : ℕ) :
    (iter_sendr stream no st i).hosts.map Host.name = st.hosts.map Host.name := by
  unfold iter_sendr
  split
  · exact set_map_name st.hosts i _ (send_two_name _ _ _ _ _)
  · rfl

/-- One loop iteration preserves host names. -/
lemma link_iter_map_name (t : ℕ) (stream : ℕ → ℚ) (no : ℕ) (st : NetState) (i : ℕ) :
    (link_iter t stream no st i).1.hosts.map Host.name = st.hosts.map Host.name := by
  unfold link_iter
  rw [iter_sendr_map_name, iter_send0_map_name, iter_tick_map_name, iter_recv0_hosts]

/-- The link pass preserves host names. -/
lemma link_pass_map_name (t : ℕ) (stream : ℕ → ℚ) (no : ℕ) :
    ∀ (is : List ℕ) (st : NetState),
      (link_pass t stream no st is).1.hosts.map Host.name = st.hosts.map Host.name
  | [], _ => rfl
  | i :: rest, st => by
    rw [show (link_pass t stream no st (i :: rest)).1
        = (link_pass t stream no (link_iter t stream no st i).1 rest).1 from rfl,
      link_pass_map_name t stream no rest _, link_iter_map_name]

/-- The whole network step of one tick preserves host names. -/
lemma tick_net_map_name (stream : ℕ → ℚ) (no t : ℕ) (st : NetState) :
    (tick_net stream no t st).hosts.map Host.name = st.hosts.map Host.name := by
  unfold tick_net
  dsimp only
  refine Eq.trans (set_map_name _ 0 _ ?_)
    (link_pass_map_name t stream no (List.range st.links.length) st)
  rfl

/-! ### Series lengths across ticks -/

/-- One tick appends exactly one alpha value per host (in both modes) and
exactly one yhat value per host in tomography mode (none in sdn mode). -/
lemma run_tick_series_len (mode : Mode) (est : EstFn) (stream : ℕ → ℚ) (no t : ℕ)
    (st : NetState) (d : Dicts)
    (hnd : (st.hosts.map Host.name).Nodup) (x : String)
    (hx : x ∈ st.hosts.map Host.name) :
    (((run_tick mode est stream no t st d).1.2.alpha x).length = (d.alpha x).length + 1)
    ∧ (((run_tick mode est stream no t st d).1.2.yhat x).length
        = (d.yhat x).length + (if mode = Mode.tomography then 1 else 0)) := by
  have hcount : ((tick_net stream no t st).hosts.map Host.name).count x = 1 := by
    rw [tick_net_map_name]
    exact List.count_eq_one_of_mem hnd hx
  cases mode with
  | tomography =>
    have hproja : (run_tick Mode.tomography est stream no t st d).1.2.alpha
        = (tomography_loop est t (tick_net stream no t st).hosts
            (tick_net stream no t st).hosts d.yhat d.gamma d.alpha).2.2 := rfl
    have hprojy : (run_tick Mode.tomography est stream no t st d).1.2.yhat
        = (tomography_loop est t (tick_net stream no t st).hosts
            (tick_net stream no t st).hosts d.yhat d.gamma d.alpha).1 := rfl
    obtain ⟨hy, ha⟩ := tomo_loop_count est t (tick_net stream no t st).hosts
      (tick_net stream no t st).hosts d.yhat d.gamma d.alpha x
    refine ⟨?_, ?_⟩
    · rw [hproja, ha, hcount]
    · rw [hprojy, hy, hcount, if_pos rfl]
  | sdn =>
    have hproja : (run_tick Mode.sdn est stream no t st d).1.2.alpha
        = sdn_reporting (tick_net stream no t st).hosts
            (tick_net stream no t st).links d.alpha := rfl
    refine ⟨?_, ?_⟩
    · rw [hproja]
      unfold sdn_reporting
      rw [sdn_loop_count, map_name_getD_range, hcount]
    · rw [show (run_tick Mode.sdn est stream no t st d).1.2.yhat = d.yhat from rfl,
        if_neg (by simp)]
      omega

/-- Over r ticks, every host alpha series grows by r, and in tomography mode
every host yhat series grows by r (it never grows in sdn mode). -/
lemma run_ticks_series_len (mode : Mode) (est : EstFn) (stream : ℕ → ℚ) (no : ℕ) :
    ∀ (r t : ℕ) (st : NetState) (d : Dicts),
      (st.hosts.map Host.name).Nodup → ∀ x ∈ st.hosts.map Host.name,
      (((run_ticks mode est stream no st d t r).1.2.alpha x).length
          = (d.alpha x).length + r)
      ∧ (((run_ticks mode est stream no st d t r).1.2.yhat x).length
          = (d.yhat x).length + (if mode = Mode.tomography then r else 0))
  | 0, t, st, d, _, x, _ => by
    constructor <;> simp [run_ticks]
  | r + 1, t, st, d, hnd, x, hx => by
    have hproj : (run_ticks mode est stream no st d t (r + 1)).1.2
        = (run_ticks mode est stream no (run_tick mode est stream no t st d).1.1
            (run_tick mode est stream no t st d).1.2 (t + 1) r).1.2 := rfl
    have hnames2 : (run_tick mode est stream no t st d).1.1.hosts.map Host.name
        = st.hosts.map Host.name := tick_net_map_name stream no t st
    obtain ⟨iha, ihy⟩ := run_ticks_series_len mode est stream no r (t + 1)
      (run_tick mode est stream no t st d).1.1 (run_tick mode est stream no t st d).1.2
      (by rw [hnames2]; exact hnd) x (by rw [hnames2]; exact hx)
    obtain ⟨ta, ty⟩ := run_tick_series_len mode est stream no t st d hnd x hx
    refine ⟨?_, ?_⟩
    · rw [hproj, iha, ta]
      omega
    · rw [hproj, ihy, ty]
      split_ifs <;> omega

/-- C9: after a run of N ticks, every host alpha series holds exactly N
entries — each tick appends exactly one value per host in the selected mode —
and in tomography mode every host yhat series likewise holds exactly N
entries; in particular all host series have equal length N at every tick
boundary.  The nodup hypothesis states that the built topology names its
hosts distinctly, which holds for every supported receiver count. -/
theorem c9_series_lengths (n : ℕ) (mode : Mode) (est : EstFn) (stream : ℕ → ℚ)
    (N : ℕ) (hnodup : ((network_setup n).2.map Host.name).Nodup)
    (x : String) (hx : x ∈ (network_setup n).2.map Host.name) :
    (((run_simulation mode est stream N (initial_net n) initial_dicts).1.2.alpha x).length
        = N)
    ∧ (mode = Mode.tomography →
       ((run_simulation mode est stream N (initial_net n) initial_dicts).1.2.yhat x).length
          = N) := by
  have hin : (initial_net n).hosts = (network_setup n).2 := rfl
  obtain ⟨ha, hy⟩ := run_ticks_series_len mode est stream
    ((initial_net n).hosts.length / 2) N 0 (initial_net n) initial_dicts
    (by rw [hin]; exact hnodup) x (by rw [hin]; exact hx)
  have hrs : run_simulation mode est stream N (initial_net n) initial_dicts
      = run_ticks mode est stream ((initial_net n).hosts.length / 2)
          (initial_net n) initial_dicts 0 N := rfl
  refine ⟨?_, ?_⟩
  · rw [hrs]
    simpa [initial_dicts] using ha
  · intro hm
    rw [hrs]
    have := hy
    rw [if_pos hm] at this
    simpa [initial_dicts] using this

/-- C9 witness: a one-tick sdn run on the two-receiver topology gives the
sender a one-entry alpha series. -/
theorem c9_series_lengths_witness :
    (((run_simulation Mode.sdn est0 (fun _ => 0) 1 (initial_net 2)
          initial_dicts).1.2.alpha "sender").length = 1)
    ∧ (Mode.sdn = Mode.tomography →
       ((run_simulation Mode.sdn est0 (fun _ => 0) 1 (initial_net 2)
            initial_dicts).1.2.yhat "sender").length = 1) :=
  c9_series_lengths 2 Mode.sdn est0 (fun _ => 0) 1 (by decide) "sender" (by decide)

/-! ### The sdn frame property -/

/-- Running the tick loop in sdn mode never touches the yhat or gamma
dictionaries. -/
lemma run_ticks_sdn_frame (est : EstFn) (stream : ℕ → ℚ) (no : ℕ) :
    ∀ (r t : ℕ) (st : NetState) (d : Dicts),
      (run_ticks Mode.sdn est stream no st d t r).1.2.yhat = d.yhat
      ∧ (run_ticks Mode.sdn est stream no st d t r).1.2.gamma = d.gamma
  | 0, _, _, _ => ⟨rfl, rfl⟩
  | r + 1, t, st, d =>
    run_ticks_sdn_frame est stream no r (t + 1)
      (run_tick Mode.sdn est stream no t st d).1.1
      (run_tick Mode.sdn est stream no t st d).1.2

/-- C10: in sdn mode the per-tick estimation step mutates only alpha_dict:
after any number of ticks, every yhat series is still the empty list it was
initialised to, and every gamma entry is still its initial value 0. -/
theorem c10_sdn_frame (n : ℕ) (est : EstFn) (stream : ℕ → ℚ) (N : ℕ) (x : String) :
    ((run_simulation Mode.sdn est stream N (initial_net n) initial_dicts).1.2.yhat x
        = [])
    ∧ ((run_simulation Mode.sdn est stream N (initial_net n) initial_dicts).1.2.gamma x
        = 0) := by
  obtain ⟨hy, hg⟩ := run_ticks_sdn_frame est stream ((initial_net n).hosts.length / 2)
    N 0 (initial_net n) initial_dicts
  have hrs : run_simulation Mode.sdn est stream N (initial_net n) initial_dicts
      = run_ticks Mode.sdn est stream ((initial_net n).hosts.length / 2)
          (initial_net n) initial_dicts 0 N := rfl
  refine ⟨?_, ?_⟩
  · rw [hrs, hy]
    rfl
  · rw [hrs, hg]
    rfl

/-! ### Link 0 never drops -/

/-- The invariant of the initial link: drop probability 0 and as many
successes as attempts. -/
def link0_ok (st : NetState) : Prop :=
  (st.links.getD 0 dLink).bernoulli_alpha = 0
  ∧ (st.links.getD 0 dLink).successes = (st.links.getD 0 dLink).attempts

/-- Receiving on a link with drop probability 0 under a nonnegative draw
always succeeds. -/
lemma recv_zero_alpha (l : Link) (r : ℚ) (p : ℕ) (ha : l.bernoulli_alpha = 0)
    (hr : 0 ≤ r) :
    (l.recv r p).bernoulli_alpha = 0
    ∧ (l.recv r p).successes = l.successes + 1
    ∧ (l.recv r p).attempts = l.attempts + 1 := by
  unfold Link.recv
  rw [ha, if_neg (not_lt.mpr hr)]
  exact ⟨rfl, rfl, rfl⟩

/-- Link.tick changes no counter and not the drop probability. -/
lemma link_tick_counters (l : Link) (h : Host) :
    (Link.tick l h).1.bernoulli_alpha = l.bernoulli_alpha
    ∧ (Link.tick l h).1.successes = l.successes
    ∧ (Link.tick l h).1.attempts = l.attempts := by
  unfold Link.tick
  split <;> exact ⟨rfl, rfl, rfl⟩

/-- The initial-link receive step preserves the invariant. -/
lemma iter_recv0_link0 (t : ℕ) (stream : ℕ → ℚ) (st : NetState) (i : ℕ)
    (h : link0_ok st) (hstream : ∀ k, 0 ≤ stream k) :
    link0_ok (iter_recv0 t stream st i) := by
  unfold iter_recv0
  split
  · show link0_ok ⟨st.links.set 0 ((st.links.getD 0 dLink).recv (stream st.rand_idx) t),
      st.hosts, st.rand_idx + 1⟩
    unfold link0_ok
    rw [show (⟨st.links.set 0 ((st.links.getD 0 dLink).recv (stream st.rand_idx) t),
        st.hosts, st.rand_idx + 1⟩ : NetState).links
      = st.links.set 0 ((st.links.getD 0 dLink).recv (stream st.rand_idx) t) from rfl]
    rw [getD_set_self_link]
    by_cases hl : 0 < st.links.length
    · rw [if_pos hl]
      obtain ⟨h1, h2, h3⟩ := recv_zero_alpha (st.links.getD 0 dLink)
        (stream st.rand_idx) t h.1 (hstream st.rand_idx)
      exact ⟨h1, by rw [h2, h3, h.2]⟩
    · rw [if_neg hl]
      exact h
  · exact h

/-- The link-tick step preserves the invariant. -/
lemma iter_tick_link0 (st : NetState) (i : ℕ) (h : link0_ok st) :
    link0_ok (iter_tick st i) := by
  unfold iter_tick
  dsimp only
  unfold link0_ok
  by_cases hi : i = 0
  · subst hi
    rw [getD_set_self_link]
    by_cases hl : 0 < st.links.length
    · rw [if_pos hl]
      obtain ⟨h1, h2, h3⟩ := link_tick_counters (st.links.getD 0 dLink)
        (st.hosts.getD 0 dHost)
      exact ⟨by rw [h1]; exact h.1, by rw [h2, h3]; exact h.2⟩
    · rw [if_neg hl]
      exact h
  · rw [getD_set_ne_link _ _ _ _ hi]
    exact h

/-- The sender-send step preserves the invariant (it touches only link 1). -/
lemma iter_send0_link0 (t : ℕ) (stream : ℕ → ℚ) (st : NetState) (i : ℕ)
    (h : link0_ok st) : link0_ok (iter_send0 t stream st i) := by
  unfold iter_send0
  split
  · unfold link0_ok
    dsimp only
    rw [getD_set_ne_link _ _ _ _ (by omega)]
    exact h
  · exact h

/-- The router-send step preserves the invariant (it touches only links 2i
and 2i+1 with i positive). -/
lemma iter_sendr_link0 (stream : ℕ → ℚ) (no : ℕ) (st : NetState) (i : ℕ)
    (h : link0_ok st) : link0_ok (iter_sendr stream no st i) := by
  unfold iter_sendr
  split
  case isTrue hc =>
    unfold link0_ok
    dsimp only
    rw [getD_set_ne_link _ _ _ _ (by omega), getD_set_ne_link _ _ _ _ (by omega)]
    exact h
  case isFalse => exact h

/-- One loop iteration preserves the invariant. -/
lemma link_iter_link0 (t : ℕ) (stream : ℕ → ℚ) (no : ℕ) (st : NetState) (i : ℕ)
    (h : link0_ok st) (hstream : ∀ k, 0 ≤ stream k) :
    link0_ok (link_iter t stream no st i).1 :=
  iter_sendr_link0 _ _ _ _
    (iter_send0_link0 _ _ _ _
      (iter_tick_link0 _ _
        (iter_recv0_link0 _ _ _ _ h hstream)))

/-- The link pass preserves the invariant. -/
lemma link_pass_link0 (t : ℕ) (stream : ℕ → ℚ) (no : ℕ)
    (hstream : ∀ k, 0 ≤ stream k) :
    ∀ (is : List ℕ) (st : NetState), link0_ok st → link0_ok (link_pass t stream no st is).1
  | [], _, h => h
  | i :: rest, st, h =>
    link_pass_link0 t stream no hstream rest _ (link_iter_link0 t stream no st i h hstream)

/-- A whole tick preserves the invariant (the ready-flag reset and the
reporting step do not touch the links). -/
lemma run_tick_link0 (mode : Mode) (est : EstFn) (stream : ℕ → ℚ) (no t : ℕ)
    (st : NetState) (d : Dicts) (h : link0_ok st) (hstream : ∀ k, 0 ≤ stream k) :
    link0_ok (run_tick mode est stream no t st d).1.1 := by
  have hlinks : (run_tick mode est stream no t st d).1.1.links
      = (link_pass t stream no st (List.range st.links.length)).1.links := rfl
  unfold link0_ok
  rw [hlinks]
  exact link_pass_link0 t stream no hstream _ st h

/-- The whole run preserves the invariant. -/
lemma run_ticks_link0 (mode : Mode) (est : EstFn) (stream : ℕ → ℚ) (no : ℕ)
    (hstream : ∀ k, 0 ≤ stream k) :
    ∀ (r t : ℕ) (st : NetState) (d : Dicts), link0_ok st →
      link0_ok (run_ticks mode est stream no st d t r).1.1
  | 0, _, _, _, h => h
  | r + 1, t, st, d, h =>
    run_ticks_link0 mode est stream no hstream r (t + 1)
      (run_tick mode est stream no t st d).1.1
      (run_tick mode est stream no t st d).1.2
      (run_tick_link0 mode est stream no t st d h hstream)

/-- Reading a mapped range by position. -/
lemma getD_map_range {α : Type} (f : ℕ → α) (m i : ℕ) (d : α) (hi : i < m) :
    ((List.range m).map f).getD i d = f i := by
  rw [List.getD_eq_getElem?_getD, List.getElem?_map, List.getElem?_range hi]
  rfl

/-- The drop probabilities assigned by network_setup: 0 at position 0 and the
default 1/10 everywhere else. -/
lemma network_setup_alphas (n : ℕ) (i : ℕ) (hi : i < 2 * n) :
    ((network_setup n).1.getD i dLink).bernoulli_alpha
      = if i = 0 then 0 else 1 / 10 := by
  have h1 : (network_setup n).1
      = (List.range (2 * n)).map (fun i => if i = 0 then Link.make 0
          else Link.make ((bernoulli_setup (2 * n) (1 / 10)).getD i 0)) := rfl
  rw [h1, getD_map_range _ _ _ _ hi]
  by_cases h0 : i = 0
  · rw [if_pos h0, if_pos h0]
    rfl
  · rw [if_neg h0, if_neg h0]
    unfold bernoulli_setup
    rw [getD_map_range _ _ _ _ hi]
    rfl

/-- The invariant holds for the freshly built network. -/
lemma initial_link0 (n : ℕ) : link0_ok (initial_net n) := by
  rcases Nat.eq_zero_or_pos n with h0 | h0
  · subst h0
    exact ⟨rfl, rfl⟩
  · have h1 : (initial_net n).links.getD 0 dLink = Link.make 0 := by
      rw [show (initial_net n).links = (network_setup n).1 from rfl,
        show (network_setup n).1
          = (List.range (2 * n)).map (fun i => if i = 0 then Link.make 0
              else Link.make ((bernoulli_setup (2 * n) (1 / 10)).getD i 0)) from rfl,
        getD_map_range _ _ _ _ (by omega), if_pos rfl]
    exact ⟨by rw [h1]; rfl, by rw [h1]; rfl⟩

/-- A link with as many successes as attempts has loss rate 0. -/
lemma loss_rate_zero_of (l : Link) (h : l.successes = l.attempts) :
    l.loss_rate = 0 := by
  unfold Link.loss_rate
  by_cases ha : l.attempts = 0
  · rw [if_pos ha]
  · rw [if_neg ha, h, div_self (Nat.cast_ne_zero.mpr ha), sub_self]

/-- C7: network_setup builds the link at heap index 0 with drop probability 0
and every other link with the configured uniform default 1/10; and under any
run of any length (with uniform draws, which are nonnegative) link 0 never
drops: its recorded loss rate is still 0 afterwards. -/
theorem c7_link0_never_drops (n : ℕ) :
    (∀ i, i < 2 * n →
      ((network_setup n).1.getD i dLink).bernoulli_alpha = if i = 0 then 0 else 1 / 10)
    ∧ (∀ (mode : Mode) (est : EstFn) (stream : ℕ → ℚ) (ticks : ℕ),
        (∀ k, 0 ≤ stream k) →
        ((run_simulation mode est stream ticks (initial_net n)
            initial_dicts).1.1.links.getD 0 dLink).loss_rate = 0) := by
  refine ⟨fun i hi => network_setup_alphas n i hi, ?_⟩
  intro mode est stream ticks hstream
  have hrs : run_simulation mode est stream ticks (initial_net n) initial_dicts
      = run_ticks mode est stream ((initial_net n).hosts.length / 2)
          (initial_net n) initial_dicts 0 ticks := rfl
  rw [hrs]
  exact loss_rate_zero_of _
    (run_ticks_link0 mode est stream _ hstream ticks 0 (initial_net n)
      initial_dicts (initial_link0 n)).2

/-- C7 witness: on the two-receiver topology, link 1 is built with drop
probability 1/10 and after a three-tick run link 0 still has loss rate 0. -/
theorem c7_link0_never_drops_witness :
    (((network_setup 2).1.getD 1 dLink).bernoulli_alpha
        = if 1 = 0 then 0 else 1 / 10)
    ∧ (((run_simulation Mode.sdn est0 (fun _ => 0) 3 (initial_net 2)
          initial_dicts).1.1.links.getD 0 dLink).loss_rate = 0) :=
  ⟨(c7_link0_never_drops 2).1 1 (by omega),
   (c7_link0_never_drops 2).2 Mode.sdn est0 (fun _ => 0) 3 (fun _ => le_refl 0)⟩

/-! ### Topology construction, validators, tick count, determinism -/

/-- C1: evaluation of network_setup at the failing input num_recvrs = 2.  The
wiring loop runs only while incr > 0, so its incr = 0 branch (the one meant to
give the sender its single downstream child, host index 1) is dead code: the
built topology has the claimed counts, router wiring and childless receivers,
but the sender (index 0) ends with an empty downstream list instead of the
claimed single child. -/
theorem c1_network_setup_eval :
    (network_setup 2).2.length = 4
    ∧ (network_setup 2).1.length = 4
    ∧ ((network_setup 2).2.getD 0 dHost).name = "sender"
    ∧ ((network_setup 2).2.getD 0 dHost).downstream_nodes = []
    ∧ ((network_setup 2).2.getD 1 dHost).downstream_nodes = [2, 3]
    ∧ ((network_setup 2).2.getD 2 dHost).downstream_nodes = []
    ∧ ((network_setup 2).2.getD 3 dHost).downstream_nodes = [] := by
  refine ⟨rfl, ?_, by decide, by decide, by decide, by decide, by decide⟩
  decide

/-- C2 counterexample: the num_recvrs validator accepts the string 256 (the
allow-list in simulator.py line 21 contains it), contradicting the claim that
256 is rejected. -/
theorem c2_check_recvrs_counterexample :
    check_recvrs "256" = Except.ok "256" := rfl

/-- C2 amended: the num_recvrs validator accepts exactly the strings 2, 4, 8,
16, 32, 64, 128 and 256, and rejects every other input (in particular 3) with
a configuration error during argument parsing, before any topology is
constructed. -/
theorem c2_check_recvrs_amended (s : String) :
    check_recvrs s = Except.ok s
      ↔ s ∈ ["2", "4", "8", "16", "32", "64", "128", "256"] := by
  unfold check_recvrs
  by_cases h : s ∈ ["2", "4", "8", "16", "32", "64", "128", "256"]
  · rw [if_pos h]
    exact ⟨fun _ => h, fun _ => rfl⟩
  · rw [if_neg h]
    exact ⟨fun he => absurd he (by simp), fun hm => absurd hm h⟩

/-- C3 counterexample: a tick count of 0 is not rejected: the int conversion
used for the ticks argument accepts the string 0, there is no further
validation, and the run with ticks = 0 completes with the dictionaries still
holding their initial empty series and with an empty trace: silent empty
output. -/
theorem c3_zero_ticks_counterexample :
    ticks_arg_type "0" = some 0
    ∧ run_simulation Mode.sdn est0 (fun _ => 0) 0 (initial_net 2) initial_dicts
        = ((initial_net 2, initial_dicts), [])
    ∧ (run_simulation Mode.sdn est0 (fun _ => 0) 0 (initial_net 2)
        initial_dicts).1.2.alpha "sender" = [] := by
  exact ⟨by decide, rfl, rfl⟩

/-- C3 amended: a configured tick count of 0 is accepted (the CLI applies only
the int conversion to the ticks argument, with no positivity check), and
run_simulation then executes zero rounds: it returns the state and the
dictionaries unchanged, with an empty trace, silently producing empty output
series for every host. -/
theorem c3_zero_ticks_amended (mode : Mode) (est : EstFn) (stream : ℕ → ℚ)
    (st : NetState) (d : Dicts) :
    ticks_arg_type "0" = some 0
    ∧ run_simulation mode est stream 0 st d = ((st, d), []) := by
  exact ⟨by decide, rfl⟩

/-- C8: determinism: the simulation is a pure function of the configuration
(mode, tick count, estimator), the built state and the seeded random source;
two executions whose draw streams agree pointwise produce identical final
network states, identical estimator dictionaries (yhat, gamma and alpha) and
identical per-tick traces. -/
theorem c8_deterministic (mode : Mode) (est : EstFn) (stream1 stream2 : ℕ → ℚ)
    (ticks : ℕ) (st : NetState) (d : Dicts)
    (h : ∀ k, stream1 k = stream2 k) :
    run_simulation mode est stream1 ticks st d
      = run_simulation mode est stream2 ticks st d := by
  have hs : stream1 = stream2 := funext h
  rw [hs]

/-- C8 witness: two identically seeded one-tick runs coincide. -/
theorem c8_deterministic_witness :
    run_simulation Mode.sdn est0 (fun _ => 0) 1 (initial_net 2) initial_dicts
      = run_simulation Mode.sdn est0 (fun _ => 0) 1 (initial_net 2) initial_dicts :=
  c8_deterministic Mode.sdn est0 (fun _ => 0) (fun _ => 0) 1 (initial_net 2)
    initial_dicts (fun _ => rfl)

end Tomography
